import Mathlib

/-!
Verification development for the Salesforce workbench data layer:
the bulk-query polling state machine, the CSV decoder, the metadata
TTL cache and the query URL encoding, embedded shallowly from the
TypeScript source and checked against the natural-language spec.
-/

set_option maxRecDepth 4000

namespace Workbench

/-! ## Bulk query polling state machine (src/lib/salesforce.ts, executeBulkQuery)

The poll loop of executeBulkQuery is embedded as a function over an
abstract response source: `respond n` is the JSON body of the
(n+1)-st status poll, reduced to the pair (state, stateMessage).
Status HTTP failures are outside the model: the claims quantify over
sequences of successfully returned states. -/

/-- Outcome of the poll phase: the loop either falls through to the
results fetch (success) or throws an Error with a message string. -/
inductive BulkOutcome where
  | success
  | failure (msg : String)
  deriving DecidableEq

/-- Model of the JavaScript expression `x || d` for `x` an optional
string field: absent or empty strings are falsy and give the default. -/
def jsOrDefault (o : Option String) (d : String) : String :=
  match o with
  | none => d
  | some s => if s = "" then d else s

/-- The timeout error message thrown after the poll loop when the job
status is not JobComplete. -/
def timeoutMsg : String := "Bulk job did not complete within the expected time"

/-- Source constant maxAttempts = 60. -/
def maxAttempts : Nat := 60

/-- The poll loop of executeBulkQuery. `fuel` is the number of loop
iterations still permitted (maxAttempts minus attempts so far);
`jobStatus` and `attempts` are the mutable locals of the source.
Returns the outcome together with the total number of status polls
issued. Mirrors:
while (jobStatus === InProgress and attempts < maxAttempts)
  poll; jobStatus := state; attempts++;
  if jobStatus === Failed throw (Bulk job failed: stateMessage or default)
after loop: if jobStatus !== JobComplete throw timeoutMsg. -/
def runPoll (respond : Nat → String × Option String) :
    Nat → String → Nat → BulkOutcome × Nat
  | 0, jobStatus, attempts =>
    (if jobStatus = "JobComplete" then BulkOutcome.success
     else BulkOutcome.failure timeoutMsg, attempts)
  | fuel + 1, jobStatus, attempts =>
    if jobStatus = "InProgress" then
      let st := (respond attempts).1
      if st = "Failed" then
        (BulkOutcome.failure
          ("Bulk job failed: " ++ jsOrDefault (respond attempts).2 "Unknown error"),
         attempts + 1)
      else runPoll respond fuel st (attempts + 1)
    else
      (if jobStatus = "JobComplete" then BulkOutcome.success
       else BulkOutcome.failure timeoutMsg, attempts)

/-- The poll phase of executeBulkQuery: jobStatus starts at InProgress,
attempts at 0, with the attempt budget maxAttempts = 60. -/
def runBulkPolling (respond : Nat → String × Option String) : BulkOutcome × Nat :=
  runPoll respond maxAttempts "InProgress" 0

/-- Response source: two InProgress polls, then JobComplete. -/
def respondSoon : Nat → String × Option String :=
  fun i => if i < 2 then ("InProgress", none) else ("JobComplete", none)

/-- Response source: every poll reports InProgress. -/
def respondStuck : Nat → String × Option String :=
  fun _ => ("InProgress", none)

/-- Response source: the first poll already reports Failed. -/
def respondFailing : Nat → String × Option String :=
  fun _ => ("Failed", some "Data job exceeded limit")

/-- Response source: the first poll reports the terminal state Aborted. -/
def respondAborted : Nat → String × Option String :=
  fun _ => ("Aborted", none)

/-- Response source: polls 0 to 58 report InProgress, poll 59 reports
Aborted — the latest possible early exit of the poll loop. -/
def respondLateAbort : Nat → String × Option String :=
  fun i => if i < 59 then ("InProgress", none) else ("Aborted", none)

/-! ## CSV decoder (src/lib/salesforce.ts, parseCSVToRecords / parseCSVLine)

Strings are handled through their character lists so that every
definition is structurally recursive and kernel-evaluable. JavaScript
string primitives (split, trim, startsWith) are modelled by structural
list functions with the same observable behaviour. -/

/-- The double-quote character. -/
def quoteChar : Char := Char.ofNat 34

/-- The comma character. -/
def commaChar : Char := Char.ofNat 44

/-- The line-feed character. -/
def newlineChar : Char := Char.ofNat 10

/-- Whitespace recognised by the modelled String.trim: tab through
carriage return, and space. (JavaScript also trims rarer Unicode space
characters, which no claim exercises.) -/
def isJsSpace (c : Char) : Bool :=
  (9 ≤ c.toNat && c.toNat ≤ 13) || c.toNat = 32

/-- Both-ends trim on character lists, modelling String.prototype.trim. -/
def jsTrimChars (l : List Char) : List Char :=
  (((l.dropWhile isJsSpace).reverse).dropWhile isJsSpace).reverse

/-- Model of String.prototype.split with a one-character separator:
full split, keeping empty fields, so that splitting the empty list
yields one empty field. -/
def splitOnChar (sep : Char) : List Char → List (List Char)
  | [] => [[]]
  | c :: rest =>
    let r := splitOnChar sep rest
    if c = sep then [] :: r
    else
      match r with
      | [] => [[c]]
      | h :: t => (c :: h) :: t

/-- Drop one leading double quote if present. -/
def stripLeadQuote : List Char → List Char
  | [] => []
  | c :: rest => if c = quoteChar then rest else c :: rest

/-- Model of the header cleanup replace of /^"|"$/ with the empty
string: remove one leading and one trailing double quote. -/
def stripQuotes (l : List Char) : List Char :=
  (stripLeadQuote ((stripLeadQuote l).reverse)).reverse

/-- Header parsing of parseCSVToRecords: a plain comma split of the
header line — with no quote tracking — followed by quote stripping. -/
def parseHeadersLine (line : List Char) : List String :=
  (splitOnChar commaChar line).map (fun f => String.mk (stripQuotes f))

/-- The character scan of parseCSVLine. The current field is
accumulated in reverse and flipped when the field ends. Mirrors:
a double quote inside quotes followed by another double quote appends
one literal quote and skips both; any other double quote toggles the
inQuotes flag; a comma outside quotes ends the field; every other
character is appended. -/
def parseCSVLineAux : List Char → Bool → List Char → List String
  | [], _, current => [String.mk current.reverse]
  | [c], inQuotes, current =>
    if c = quoteChar then
      -- no following character: toggle the flag and reach the end
      [String.mk current.reverse]
    else if c = commaChar ∧ inQuotes = false then
      String.mk current.reverse :: parseCSVLineAux [] false []
    else parseCSVLineAux [] inQuotes (c :: current)
  | c :: c2 :: rest2, inQuotes, current =>
    if c = quoteChar then
      if inQuotes then
        if c2 = quoteChar then parseCSVLineAux rest2 true (quoteChar :: current)
        else parseCSVLineAux (c2 :: rest2) false current
      else parseCSVLineAux (c2 :: rest2) true current
    else if c = commaChar ∧ inQuotes = false then
      String.mk current.reverse :: parseCSVLineAux (c2 :: rest2) false []
    else parseCSVLineAux (c2 :: rest2) inQuotes (c :: current)

/-- Quote-aware split of one data line (source parseCSVLine). -/
def parseCSVLine (line : List Char) : List String :=
  parseCSVLineAux line false []

/-! ### Numeric model

The type-coercion branch of parseCSVToRecords calls the ECMAScript
builtins Number, parseFloat, isNaN and Number.prototype.toString.
JavaScript numbers are IEEE-754 binary64 values, and the model
implements them as such: Number and parseFloat parse optionally signed
decimal literals (integer part, optional fraction, optional exponent)
and the Infinity forms, and convert the exact decimal to the nearest
double with round-half-to-even, overflowing to the infinities and
underflowing to signed zero; toString searches the shortest significant
digits that convert back to the double (the ECMAScript
Number::toString algorithm) and lays them out with its fixed or
exponent notation rules (exponent form at magnitudes of 1e21 and
above, or below 1e-6). Number-prefix forms the real Number also
accepts but this parser maps to NaN (hexadecimal, octal and binary
literals, whitespace-padded numbers) never change a decoded cell: for
each of them the real coercion also keeps the string, because the
re-stringification of parseFloat of such a string can never reproduce
it (toString output contains no letter x, o, b or blank). -/

/-- JavaScript number values are IEEE-754 binary64: NaN, the two
infinities, or a finite value sign × mant × 2 ^ exp, produced in the
canonical form of the conversions below (mant < 2 ^ 53, and mant is 0
only for the zeros, kept with exp = 0; neg on a zero models -0). -/
inductive JsNum where
  | nan
  | posInf
  | negInf
  | finite (neg : Bool) (mant : Nat) (exp : Int)
  deriving DecidableEq

/-- Decimal digit value of a character, if any. -/
def digitVal (c : Char) : Option Nat :=
  if 48 ≤ c.toNat ∧ c.toNat ≤ 57 then some (c.toNat - 48) else none

/-- Read a maximal run of decimal digits, returning the accumulated
value, the number of digits read and the rest of the input. -/
def readDigits : Nat → Nat → List Char → Nat × Nat × List Char
  | acc, cnt, [] => (acc, cnt, [])
  | acc, cnt, c :: rest =>
    match digitVal c with
    | some d => readDigits (acc * 10 + d) (cnt + 1) rest
    | none => (acc, cnt, c :: rest)

/-- The dot character. -/
def dotChar : Char := Char.ofNat 46

/-- Read an optional sign, returning (isNegative, rest). -/
def readSign : List Char → Bool × List Char
  | [] => (false, [])
  | c :: rest =>
    if c.toNat = 45 then (true, rest)
    else if c.toNat = 43 then (false, rest)
    else (false, c :: rest)

/-- Parse an optional exponent part: an e or E marker with an
optionally signed digit run. When no digit follows the marker nothing
is consumed, as in the builtins (parseFloat of 1e+x is 1). -/
def parseExpPart (l : List Char) : Int × List Char :=
  match l with
  | [] => (0, [])
  | c :: rest =>
    if c.toNat = 101 ∨ c.toNat = 69 then
      let (sgnNeg, r2) := readSign rest
      let (ev, ec, r3) := readDigits 0 0 r2
      if ec = 0 then (0, c :: rest)
      else ((if sgnNeg then -(ev : Int) else (ev : Int)), r3)
    else (0, c :: rest)

/-- Parse an unsigned decimal literal: digits, optional dot and more
digits (at least one digit in total), then an optional exponent part.
Returns the digit value m, the decimal exponent d (the value read is
m × 10 ^ d), the number of mantissa digits and the unconsumed input. -/
def parseDec (l : List Char) : Option (Nat × Int × Nat × List Char) :=
  let (ip, ic, r1) := readDigits 0 0 l
  match r1 with
  | c :: r2 =>
    if c = dotChar then
      let (fp, fc, r3) := readDigits 0 0 r2
      if ic + fc = 0 then none
      else
        let (ex, r4) := parseExpPart r3
        some (ip * 10 ^ fc + fp, ex - (fc : Int), ic + fc, r4)
    else if ic = 0 then none
    else
      let (ex, r4) := parseExpPart (c :: r2)
      some (ip, ex, ic, r4)
  | [] => if ic = 0 then none else some (ip, 0, ic, [])

/-- The characters of the Infinity literal. -/
def infinityChars : List Char := "Infinity".data

/-- Boolean list-prefix test (model of String.prototype.startsWith,
also used by the parseFloat model). -/
def takesLead : List Char → List Char → Bool
  | [], _ => true
  | _ :: _, [] => false
  | a :: as, b :: bs => if a = b then takesLead as bs else false

/-- Round the positive rational num / den to the nearest integer,
halves to even. -/
def roundHalfEven (num den : Nat) : Nat :=
  let q := num / den
  let r := num % den
  if den < 2 * r then q + 1
  else if 2 * r < den then q
  else if q % 2 = 0 then q else q + 1

/-- Double the denominator of num / den until the fraction is below
2 ^ 53, counting the binary exponent up. -/
def scaleDown : Nat → Nat → Nat → Int → Nat × Nat × Int
  | 0, num, den, e => (num, den, e)
  | fuel + 1, num, den, e =>
    if den * 9007199254740992 ≤ num then scaleDown fuel num (den * 2) (e + 1)
    else (num, den, e)

/-- Double the numerator of num / den until the fraction reaches
2 ^ 52 or the exponent floor -1074 of the subnormals, counting the
binary exponent down. -/
def scaleUp : Nat → Nat → Nat → Int → Nat × Nat × Int
  | 0, num, den, e => (num, den, e)
  | fuel + 1, num, den, e =>
    if num < den * 4503599627370496 ∧ -1074 < e then
      scaleUp fuel (num * 2) den (e - 1)
    else (num, den, e)

/-- Correctly rounded conversion of the exact decimal m × 10 ^ d to a
binary64 value (round half to even); digits is the number of mantissa
digits read, which bounds the scaling fuel. Magnitudes at or above
1e310 overflow to the infinities before any scaling, magnitudes below
1e-323 underflow to a signed zero, and the borderline cases are settled
by the rounding itself. -/
def decToDouble (neg : Bool) (m : Nat) (d : Int) (digits : Nat) : JsNum :=
  if m = 0 then JsNum.finite neg 0 0
  else if 310 ≤ d then (if neg then JsNum.negInf else JsNum.posInf)
  else if d + digits < -323 then JsNum.finite neg 0 0
  else
    let num := if 0 ≤ d then m * 10 ^ d.toNat else m
    let den := if 0 ≤ d then 1 else 10 ^ (-d).toNat
    let fuel := 4 * digits + 2500
    let (n1, d1, e1) := scaleDown fuel num den 0
    let (n2, d2, e2) := scaleUp fuel n1 d1 e1
    let mant := roundHalfEven n2 d2
    let mant2 := if mant = 9007199254740992 then 4503599627370496 else mant
    let e3 := if mant = 9007199254740992 then e2 + 1 else e2
    if mant2 = 0 then JsNum.finite neg 0 0
    else if 971 < e3 then (if neg then JsNum.negInf else JsNum.posInf)
    else JsNum.finite neg mant2 e3

/-- Model of Number(string): whitespace is trimmed from both ends, the
empty remainder is 0, an optionally signed Infinity or fully consumed
decimal literal converts to its double, everything else is NaN. -/
def jsNumber (s : String) : JsNum :=
  match jsTrimChars s.data with
  | [] => JsNum.finite false 0 0
  | c :: rest =>
    let (neg, l2) := readSign (c :: rest)
    if l2 = infinityChars then (if neg then JsNum.negInf else JsNum.posInf)
    else
      match parseDec l2 with
      | some (m, d, digits, []) => decToDouble neg m d digits
      | _ => JsNum.nan

/-- Model of parseFloat(string): skips leading whitespace, converts
the longest optionally signed Infinity or decimal-literal head of the
remainder and ignores the rest; NaN when no numeric head exists. -/
def jsParseFloat (s : String) : JsNum :=
  let (neg, l2) := readSign (s.data.dropWhile isJsSpace)
  if takesLead infinityChars l2 then (if neg then JsNum.negInf else JsNum.posInf)
  else
    match parseDec l2 with
    | some (m, d, digits, _) => decToDouble neg m d digits
    | none => JsNum.nan

/-- Model of the global isNaN on values that are already numbers. -/
def JsNum.isNaN : JsNum → Bool
  | JsNum.nan => true
  | _ => false

/-- Digits of a natural number, most significant first (with fuel for
structural recursion; the fuel n + 1 always suffices). -/
def natDigitsAux : Nat → Nat → List Char
  | 0, _ => []
  | fuel + 1, n =>
    if n < 10 then [Char.ofNat (48 + n)]
    else natDigitsAux fuel (n / 10) ++ [Char.ofNat (48 + n % 10)]

/-- Decimal digits of a natural number. -/
def natChars (n : Nat) : List Char := natDigitsAux (n + 1) n

/-- Is the positive rational xn / xd at least 10 ^ n? -/
def tenPowLE (xn xd : Nat) (n : Int) : Bool :=
  if 0 ≤ n then xd * 10 ^ n.toNat ≤ xn else xd ≤ xn * 10 ^ (-n).toNat

/-- Climb to the smallest n with xn / xd < 10 ^ n. -/
def decExpUp : Nat → Nat → Nat → Int → Int
  | 0, _, _, n => n
  | fuel + 1, xn, xd, n =>
    if tenPowLE xn xd n then decExpUp fuel xn xd (n + 1) else n

/-- Descend while xn / xd < 10 ^ (n - 1). -/
def decExpDown : Nat → Nat → Nat → Int → Int
  | 0, _, _, n => n
  | fuel + 1, xn, xd, n =>
    if tenPowLE xn xd (n - 1) then n else decExpDown fuel xn xd (n - 1)

/-- The decimal exponent of the positive rational xn / xd: the unique
n with 10 ^ (n - 1) ≤ xn / xd < 10 ^ n. -/
def findDecExp (xn xd : Nat) : Int :=
  decExpDown 1200 xn xd (decExpUp 1200 xn xd 0)

/-- The correctly rounded p-significant-digit decimal of the positive
rational xn / xd with decimal exponent n: the half-even rounding of
the fraction divided by 10 ^ (n - p), carrying into (1, n + 1) when
rounding overflows to one more digit. The pair (s, n) denotes the
decimal s × 10 ^ (n - p). -/
def sigDigits (xn xd : Nat) (n : Int) (p : Nat) : Nat × Int :=
  let t : Int := (p : Int) - n
  let num := if 0 ≤ t then xn * 10 ^ t.toNat else xn
  let den := if 0 ≤ t then xd else xd * 10 ^ (-t).toNat
  let s := roundHalfEven num den
  if s = 10 ^ p then (10 ^ (p - 1), n + 1) else (s, n)

/-- Does the decimal s × 10 ^ (n - p) convert back to exactly the
double mant × 2 ^ exp? -/
def roundsBackTo (s : Nat) (n : Int) (p : Nat) (mant : Nat) (exp : Int) : Bool :=
  match decToDouble false s (n - p) p with
  | JsNum.finite _ m2 e2 => m2 = mant ∧ e2 = exp
  | _ => false

/-- The shortest-digits search of Number::toString: the least
precision p from 1 up whose correctly rounded p-digit decimal converts
back to the double; seventeen digits always do, so the last precision
is taken unchecked when the fuel runs out. -/
def shortestDigitsAux (xn xd : Nat) (n : Int) (mant : Nat) (exp : Int) :
    Nat → Nat → Nat × Int × Nat
  | p, 0 =>
    let (s, n2) := sigDigits xn xd n p
    (s, n2, p)
  | p, fuel + 1 =>
    let (s, n2) := sigDigits xn xd n p
    if roundsBackTo s n2 p mant exp then (s, n2, p)
    else shortestDigitsAux xn xd n mant exp (p + 1) fuel

/-- Shortest digits s with precision p and decimal exponent n for the
double mant × 2 ^ exp = xn / xd. -/
def shortestDigits (xn xd : Nat) (n : Int) (mant : Nat) (exp : Int) :
    Nat × Int × Nat :=
  shortestDigitsAux xn xd n mant exp 1 16

/-- Layout of Number::toString for the digits s (p of them, value
s × 10 ^ (n - p)): plain integer form with trailing zeros when
p ≤ n ≤ 21; a decimal point inside the digits when 0 < n ≤ 21; a 0.
prefix with leading zeros when -6 < n ≤ 0; exponent notation with a
mandatory sign otherwise. -/
def renderDec (neg : Bool) (s : Nat) (n : Int) (p : Nat) : String :=
  let D := natChars s
  let sign := if neg then [Char.ofNat 45] else ([] : List Char)
  if (p : Int) ≤ n ∧ n ≤ 21 then
    String.mk (sign ++ D ++ List.replicate (n - (p : Int)).toNat (Char.ofNat 48))
  else if 0 < n ∧ n ≤ 21 then
    String.mk (sign ++ D.take n.toNat ++ dotChar :: D.drop n.toNat)
  else if -6 < n ∧ n ≤ 0 then
    String.mk (sign ++ Char.ofNat 48 :: dotChar ::
      (List.replicate (-n).toNat (Char.ofNat 48) ++ D))
  else
    let em := n - 1
    let expChars := (if 0 ≤ em then [Char.ofNat 43] else [Char.ofNat 45]) ++
      natChars em.natAbs
    if p = 1 then String.mk (sign ++ D ++ Char.ofNat 101 :: expChars)
    else String.mk (sign ++ D.headD (Char.ofNat 48) :: dotChar ::
      (D.tail ++ Char.ofNat 101 :: expChars))

/-- Model of Number.prototype.toString: NaN and the infinities print
their literals, zeros print 0 (also -0), and a finite value prints its
shortest round-tripping digits in the Number::toString layout. -/
def jsToString (x : JsNum) : String :=
  match x with
  | JsNum.nan => "NaN"
  | JsNum.posInf => "Infinity"
  | JsNum.negInf => "-Infinity"
  | JsNum.finite neg mant e =>
    if mant = 0 then "0"
    else
      let xn := if 0 ≤ e then mant * 2 ^ e.toNat else mant
      let xd := if 0 ≤ e then 1 else 2 ^ (-e).toNat
      let n := findDecExp xn xd
      let (s, n2, p) := shortestDigits xn xd n mant e
      renderDec neg s n2 p

/-- Decoded cell values: null, boolean, number or string. -/
inductive JsValue where
  | null
  | bool (b : Bool)
  | num (n : JsNum)
  | str (s : String)
  deriving DecidableEq

/-- The per-cell coercion of parseCSVToRecords. The `none` case and the
empty-string case model `values[index] || null` together with the
`value === ""` check; then the exact true/false comparisons; then the
numeric branch guarded by truthiness and the two isNaN tests, admitting
a number only when its re-stringification reproduces the cell text,
possibly with a trailing ".0". -/
def coerceCell (cell : Option String) : JsValue :=
  match cell with
  | none => JsValue.null
  | some v =>
    if v = "" then JsValue.null
    else if v = "true" then JsValue.bool true
    else if v = "false" then JsValue.bool false
    else if v ≠ "" ∧ (jsNumber v).isNaN = false ∧ (jsParseFloat v).isNaN = false then
      let num := jsParseFloat v
      if jsToString num = v ∨ jsToString num ++ ".0" = v then JsValue.num num
      else JsValue.str v
    else JsValue.str v

/-- The headers.forEach((header, index) => ...) record construction:
walk the headers with their index, coercing the cell at the same index,
absent cells reading as null. Records are modelled as association
lists in header order. -/
def buildRecordAux (values : List String) : Nat → List String → List (String × JsValue)
  | _, [] => []
  | idx, h :: hs => (h, coerceCell (values.get? idx)) :: buildRecordAux values (idx + 1) hs

/-- One record: for each header (by position) the coerced cell at the
same index. -/
def buildRecord (headers : List String) (values : List String) :
    List (String × JsValue) :=
  buildRecordAux values 0 headers

/-- Full decoder (source parseCSVToRecords): trim the text, split into
lines, parse the header line with the plain comma split, then decode
every non-blank data line with the quote-aware scan. -/
def parseCSVToRecords (csvText : String) : List (List (String × JsValue)) :=
  let lines := splitOnChar newlineChar (jsTrimChars csvText.data)
  match lines with
  | [] => []
  | headerLine :: dataLines =>
    let headers := parseHeadersLine headerLine
    (dataLines.filter (fun line => jsTrimChars line ≠ [])).map
      (fun line => buildRecord headers (parseCSVLine line))

/-- The header names of a CSV text, as the decoder computes them. -/
def csvHeaders (csvText : String) : List String :=
  match splitOnChar newlineChar (jsTrimChars csvText.data) with
  | [] => []
  | headerLine :: _ => parseHeadersLine headerLine

/-- The header rule as the amended claim words it: take the first line
of the trimmed text, split it at every comma with no quote tracking,
and strip one leading and one trailing quote from each piece. -/
def quoteBlindHeaders (csvText : String) : List String :=
  List.map (fun f => String.mk (stripQuotes f))
    (splitOnChar commaChar
      ((splitOnChar newlineChar (jsTrimChars csvText.data)).headD []))

/-! ## Metadata cache (src/unnamed/part_000: metadata-cache module)

The process-wide Map is modelled as an association list with unique
keys, threaded explicitly; Date.now() becomes an explicit `now`
parameter (timestamps are integers of milliseconds). -/

/-- One picklist entry of a field description. -/
structure PicklistValue where
  label : String
  value : String
  active : Bool
  deriving DecidableEq

/-- One field of an object description. -/
structure FieldDescriptor where
  name : String
  label : String
  type : String
  length : Int
  precision : Int
  scale : Int
  nillable : Bool
  unique : Bool
  calculated : Bool
  custom : Bool
  createable : Bool
  updateable : Bool
  externalId : Bool
  idLookup : Bool
  picklistValues : List PicklistValue
  relationshipName : String
  referenceTo : List String
  dependentPicklist : Bool
  controllerName : String
  soapType : String
  deriving DecidableEq

/-- One child relationship of an object description. -/
structure ChildRelationship where
  childSObject : String
  field : String
  relationshipName : String
  deriving DecidableEq

/-- One record type of an object description. -/
structure RecordTypeInfo where
  name : String
  recordTypeId : String
  active : Bool
  deriving DecidableEq

/-- An object-schema description (source interface ObjectMetadata). -/
structure ObjectMetadata where
  name : String
  label : String
  labelPlural : String
  keyPrefix : String
  custom : Bool
  createable : Bool
  deletable : Bool
  queryable : Bool
  searchable : Bool
  updateable : Bool
  fields : List FieldDescriptor
  childRelationships : List ChildRelationship
  recordTypeInfos : List RecordTypeInfo
  deriving DecidableEq

/-- A cache entry (source interface CachedMetadata): the data, the
insertion timestamp and the time to live, in milliseconds. -/
structure CachedMetadata where
  data : ObjectMetadata
  timestamp : Int
  ttl : Int
  deriving DecidableEq

/-- The metadataCache Map, as an association list with unique keys. -/
abbrev MetadataCache := List (String × CachedMetadata)

/-- Source constant DEFAULT_TTL: ten minutes in milliseconds. -/
def DEFAULT_TTL : Int := 10 * 60 * 1000

/-- Key construction (source getCacheKey): plain concatenation. -/
def getCacheKey (instanceUrl objectType : String) : String :=
  instanceUrl ++ ":" ++ objectType

/-- Model of Map.prototype.get. -/
def mapGet (m : MetadataCache) (k : String) : Option CachedMetadata :=
  match m with
  | [] => none
  | (k2, v) :: rest => if k2 = k then some v else mapGet rest k

/-- Model of Map.prototype.set: overwrite in place or append. -/
def mapSet (m : MetadataCache) (k : String) (v : CachedMetadata) : MetadataCache :=
  match m with
  | [] => [(k, v)]
  | (k2, v2) :: rest => if k2 = k then (k, v) :: rest else (k2, v2) :: mapSet rest k v

/-- Model of Map.prototype.delete. -/
def mapDelete (m : MetadataCache) (k : String) : MetadataCache :=
  m.filter (fun p => p.1 ≠ k)

/-- Source isValidCacheEntry: the entry age is below its ttl. -/
def isValidCacheEntry (now : Int) (entry : CachedMetadata) : Bool :=
  now - entry.timestamp < entry.ttl

/-- Model of String.prototype.startsWith. -/
def strStartsWith (s p : String) : Bool :=
  takesLead p.data s.data

/-- Source getCachedMetadata: return the data when present and valid;
otherwise remove any expired entry and return null. The mutation of the
shared Map is returned as the second component. -/
def getCachedMetadata (now : Int) (instanceUrl objectType : String)
    (cache : MetadataCache) : Option ObjectMetadata × MetadataCache :=
  let cacheKey := getCacheKey instanceUrl objectType
  match mapGet cache cacheKey with
  | some cached =>
    if isValidCacheEntry now cached then (some cached.data, cache)
    else (none, mapDelete cache cacheKey)
  | none => (none, cache)

/-- Source setCachedMetadata: insert or overwrite at the key, with the
current time as timestamp (the source defaults ttl to DEFAULT_TTL). -/
def setCachedMetadata (now : Int) (instanceUrl objectType : String)
    (metadata : ObjectMetadata) (ttl : Int) (cache : MetadataCache) : MetadataCache :=
  mapSet cache (getCacheKey instanceUrl objectType)
    { data := metadata, timestamp := now, ttl := ttl }

/-- Source clearInstanceCache: delete every key that starts with the
instance URL followed by a colon. -/
def clearInstanceCache (instanceUrl : String) (cache : MetadataCache) : MetadataCache :=
  cache.filter (fun p => !strStartsWith p.1 (instanceUrl ++ ":"))

/-- A concrete object description for the witnesses. -/
def exampleMetadata : ObjectMetadata where
  name := "Account"
  label := "Account"
  labelPlural := "Accounts"
  keyPrefix := "001"
  custom := false
  createable := true
  deletable := true
  queryable := true
  searchable := true
  updateable := true
  fields := []
  childRelationships := []
  recordTypeInfos := []

/-! ## Query URL encoding (src/lib/salesforce.ts, executeQuery)

executeQuery computes encodeURIComponent(query) and appends it to the
fixed query path. encodeURIComponent percent-encodes every UTF-8 byte
of every character outside the unreserved set; decodeURIComponent
inverts this. Both are modelled on character lists. -/

/-- The characters encodeURIComponent leaves as-is: ASCII letters and
digits and - _ . ! ~ * apostrophe ( ). -/
def isUnreservedChar (c : Char) : Bool :=
  (65 ≤ c.toNat && c.toNat ≤ 90) || (97 ≤ c.toNat && c.toNat ≤ 122) ||
    (48 ≤ c.toNat && c.toNat ≤ 57) ||
    (c.toNat = 45 || c.toNat = 95 || c.toNat = 46 || c.toNat = 33 ||
     c.toNat = 126 || c.toNat = 42 || c.toNat = 39 || c.toNat = 40 || c.toNat = 41)

/-- The UTF-8 bytes of one character. -/
def utf8Bytes (c : Char) : List Nat :=
  if c.toNat < 128 then [c.toNat]
  else if c.toNat < 2048 then [192 + c.toNat / 64, 128 + c.toNat % 64]
  else if c.toNat < 65536 then
    [224 + c.toNat / 4096, 128 + (c.toNat / 64) % 64, 128 + c.toNat % 64]
  else
    [240 + c.toNat / 262144, 128 + (c.toNat / 4096) % 64, 128 + (c.toNat / 64) % 64,
     128 + c.toNat % 64]

/-- Uppercase hexadecimal digit for a value below 16. -/
def hexDigitChar (n : Nat) : Char :=
  if n < 10 then Char.ofNat (48 + n) else Char.ofNat (55 + n)

/-- The three-character percent escape of one byte. -/
def percentByte (b : Nat) : List Char :=
  [Char.ofNat 37, hexDigitChar (b / 16), hexDigitChar (b % 16)]

/-- Encoding of one character: kept verbatim when unreserved, else the
percent escapes of its UTF-8 bytes. -/
def encodeChar (c : Char) : List Char :=
  if isUnreservedChar c then [c] else (utf8Bytes c).flatMap percentByte

/-- Model of encodeURIComponent. -/
def encodeURIComponent (s : String) : String :=
  String.mk (s.data.flatMap encodeChar)

/-- Value of a hexadecimal digit character (either case). -/
def hexVal (c : Char) : Nat :=
  if 48 ≤ c.toNat ∧ c.toNat ≤ 57 then c.toNat - 48
  else if 65 ≤ c.toNat ∧ c.toNat ≤ 70 then c.toNat - 55
  else if 97 ≤ c.toNat ∧ c.toNat ≤ 102 then c.toNat - 87
  else 0

/-- Intermediate decoding tokens: a literal character, or one byte
recovered from a percent escape. -/
inductive UriTok where
  | raw (c : Char)
  | byte (b : Nat)
  deriving DecidableEq

/-- First decoding pass: replace each %HH triple by its byte; all other
characters pass through (a trailing malformed escape is kept raw; the
original instead throws URIError on it, which no claim exercises). -/
def uriTokenize : List Char → List UriTok
  | [] => []
  | [c] => [UriTok.raw c]
  | [c, c2] =>
    if c.toNat = 37 then [UriTok.raw c, UriTok.raw c2]
    else UriTok.raw c :: uriTokenize [c2]
  | c :: c2 :: c3 :: rest =>
    if c.toNat = 37 then
      UriTok.byte (hexVal c2 * 16 + hexVal c3) :: uriTokenize rest
    else UriTok.raw c :: uriTokenize (c2 :: c3 :: rest)

/-- Second decoding pass: reassemble UTF-8 byte groups into
characters. The state carries the partially assembled code point and
the number of continuation bytes still expected (malformed input —
which the original rejects with URIError, unexercised by the claims —
drops the pending group). -/
def uriDecodeAux : Option (Nat × Nat) → List UriTok → List Char
  | _, [] => []
  | none, UriTok.raw c :: rest => c :: uriDecodeAux none rest
  | none, UriTok.byte b :: rest =>
    if b < 128 then Char.ofNat b :: uriDecodeAux none rest
    else if b < 224 then uriDecodeAux (some (b - 192, 1)) rest
    else if b < 240 then uriDecodeAux (some (b - 224, 2)) rest
    else uriDecodeAux (some (b - 240, 3)) rest
  | some _, UriTok.raw c :: rest => c :: uriDecodeAux none rest
  | some (acc, k), UriTok.byte b :: rest =>
    if k ≤ 1 then Char.ofNat (acc * 64 + (b - 128)) :: uriDecodeAux none rest
    else uriDecodeAux (some (acc * 64 + (b - 128), k - 1)) rest

/-- Model of decodeURIComponent. -/
def decodeURIComponent (s : String) : String :=
  String.mk (uriDecodeAux none (uriTokenize s.data))

/-- The request path executeQuery issues its GET against: the fixed
query endpoint with the encoded query appended after q=. -/
def executeQueryPath (query : String) : String :=
  "/services/data/v58.0/query/?q=" ++ encodeURIComponent query

/-- The tokens produced for one encoded character. -/
def encTokens (c : Char) : List UriTok :=
  if isUnreservedChar c then [UriTok.raw c] else (utf8Bytes c).map UriTok.byte

/-! ## Theorems -/

/-- Exiting the loop: when the status is not InProgress the loop body
never runs again, for any remaining fuel. -/
theorem runPoll_exit (respond : Nat → String × Option String)
    (fuel : Nat) (st : String) (attempts : Nat) (h : st ≠ "InProgress") :
    runPoll respond fuel st attempts =
      (if st = "JobComplete" then BulkOutcome.success
       else BulkOutcome.failure timeoutMsg, attempts) := by
  cases fuel with
  | zero => rfl
  | succ n => simp [runPoll, h]

/-- One loop iteration where the poll returns InProgress. -/
theorem runPoll_step (respond : Nat → String × Option String)
    (fuel attempts : Nat) (h : (respond attempts).1 = "InProgress") :
    runPoll respond (fuel + 1) "InProgress" attempts =
      runPoll respond fuel "InProgress" (attempts + 1) := by
  simp [runPoll, h]

/-- One loop iteration where the poll returns Failed: immediate stop. -/
theorem runPoll_failed (respond : Nat → String × Option String)
    (fuel attempts : Nat) (h : (respond attempts).1 = "Failed") :
    runPoll respond (fuel + 1) "InProgress" attempts =
      (BulkOutcome.failure
        ("Bulk job failed: " ++ jsOrDefault (respond attempts).2 "Unknown error"),
       attempts + 1) := by
  simp [runPoll, h]

/-- One loop iteration with a terminal non-Failed poll result. -/
theorem runPoll_terminal (respond : Nat → String × Option String)
    (fuel attempts : Nat) (st : String) (h : (respond attempts).1 = st)
    (hf : st ≠ "Failed") (hip : st ≠ "InProgress") :
    runPoll respond (fuel + 1) "InProgress" attempts =
      (if st = "JobComplete" then BulkOutcome.success
       else BulkOutcome.failure timeoutMsg, attempts + 1) := by
  cases fuel with
  | zero => simp [runPoll, h, hf, hip]
  | succ n => simp [runPoll, h, hf, hip]

/-- If every poll from `attempts` for `fuel` steps is InProgress, the
loop exhausts its fuel and times out after exactly `fuel` more polls. -/
theorem runPoll_all_inProgress (respond : Nat → String × Option String)
    (fuel : Nat) : ∀ attempts : Nat,
    (∀ i, attempts ≤ i → i < attempts + fuel → (respond i).1 = "InProgress") →
    runPoll respond fuel "InProgress" attempts =
      (BulkOutcome.failure timeoutMsg, attempts + fuel) := by
  induction fuel with
  | zero => intro attempts _; rfl
  | succ n ih =>
    intro attempts h
    rw [runPoll_step respond n attempts (h attempts (Nat.le_refl _) (by omega))]
    rw [ih (attempts + 1) (fun i h1 h2 => h i (by omega) (by omega))]
    have harith : attempts + 1 + n = attempts + (n + 1) := by omega
    rw [harith]

/-- The loop only consults the response source at indices below
`attempts + fuel`: two sources agreeing there give identical runs. -/
theorem runPoll_congr (r r2 : Nat → String × Option String)
    (fuel : Nat) : ∀ (st : String) (attempts : Nat),
    (∀ i, attempts ≤ i → i < attempts + fuel → r i = r2 i) →
    runPoll r fuel st attempts = runPoll r2 fuel st attempts := by
  induction fuel with
  | zero => intro st attempts _; rfl
  | succ n ih =>
    intro st attempts h
    by_cases hip : st = "InProgress"
    · subst hip
      have hr : r attempts = r2 attempts := h attempts (Nat.le_refl _) (by omega)
      simp only [runPoll, hr]
      by_cases hf : (r2 attempts).1 = "Failed"
      · simp [hf]
      · simp only [hf, if_neg hf]
        exact ih _ (attempts + 1) (fun i h1 h2 => h i (by omega) (by omega))
    · rw [runPoll_exit r (n+1) st attempts hip, runPoll_exit r2 (n+1) st attempts hip]

/-- If the first `k` polls are InProgress and poll `k` (still within the
budget) is Failed, the loop stops right there with the failure message. -/
theorem runPoll_failed_at (respond : Nat → String × Option String)
    (k : Nat) : ∀ (fuel attempts : Nat), k < fuel →
    (∀ i, attempts ≤ i → i < attempts + k → (respond i).1 = "InProgress") →
    (respond (attempts + k)).1 = "Failed" →
    runPoll respond fuel "InProgress" attempts =
      (BulkOutcome.failure
        ("Bulk job failed: " ++ jsOrDefault (respond (attempts + k)).2 "Unknown error"),
       attempts + k + 1) := by
  induction k with
  | zero =>
    intro fuel attempts hk _ hfail
    obtain ⟨n, rfl⟩ : ∃ n, fuel = n + 1 := ⟨fuel - 1, by omega⟩
    simpa using runPoll_failed respond n attempts (by simpa using hfail)
  | succ m ih =>
    intro fuel attempts hk hip hfail
    obtain ⟨n, rfl⟩ : ∃ n, fuel = n + 1 := ⟨fuel - 1, by omega⟩
    rw [runPoll_step respond n attempts (hip attempts (Nat.le_refl _) (by omega))]
    have := ih n (attempts + 1) (by omega)
      (fun i h1 h2 => hip i (by omega) (by omega))
      (by have : attempts + 1 + m = attempts + (m + 1) := by omega
          rw [this]; exact hfail)
    rw [this]
    have harith : attempts + 1 + m = attempts + (m + 1) := by omega
    rw [harith]

/-- The Failed-branch message always differs from the timeout message. -/
theorem failedMsg_ne_timeoutMsg (s : String) :
    "Bulk job failed: " ++ s ≠ timeoutMsg := by
  intro h
  have h2 := congrArg String.data h
  rw [String.data_append] at h2
  have h3 := congrArg (List.take ("Bulk job failed: ".data.length)) h2
  rw [List.take_left] at h3
  exact absurd h3 (by decide)

/-- A run that ends with the timeout error either exhausted all of its
fuel on InProgress polls, or stopped right after a poll that returned a
state other than InProgress, JobComplete and Failed. -/
theorem runPoll_timeout_cases (respond : Nat → String × Option String) :
    ∀ (fuel attempts n : Nat),
    runPoll respond fuel "InProgress" attempts = (BulkOutcome.failure timeoutMsg, n) →
    (n = attempts + fuel ∧ ∀ i, attempts ≤ i → i < n → (respond i).1 = "InProgress")
    ∨ (∃ k, attempts ≤ k ∧ k < attempts + fuel ∧ n = k + 1 ∧
        (∀ i, attempts ≤ i → i < k → (respond i).1 = "InProgress") ∧
        (respond k).1 ≠ "InProgress" ∧ (respond k).1 ≠ "JobComplete" ∧
        (respond k).1 ≠ "Failed") := by
  intro fuel
  induction fuel with
  | zero =>
    intro attempts n h
    simp [runPoll] at h
    left
    exact ⟨by omega, fun i h1 h2 => absurd h2 (by omega)⟩
  | succ m ih =>
    intro attempts n h
    by_cases hf : (respond attempts).1 = "Failed"
    · rw [runPoll_failed respond m attempts hf] at h
      rw [Prod.mk.injEq] at h
      have hmsg : "Bulk job failed: " ++ jsOrDefault (respond attempts).2 "Unknown error"
          = timeoutMsg := by
        have := h.1
        injection this
      exact absurd hmsg (failedMsg_ne_timeoutMsg _)
    · by_cases hip : (respond attempts).1 = "InProgress"
      · rw [runPoll_step respond m attempts hip] at h
        rcases ih (attempts + 1) n h with ⟨hn, hall⟩ | ⟨k, hk1, hk2, hk3, hk4, hk5, hk6, hk7⟩
        · left
          refine ⟨by omega, fun i h1 h2 => ?_⟩
          rcases Nat.eq_or_lt_of_le h1 with heq | hlt
          · rw [← heq]; exact hip
          · exact hall i (by omega) (by omega)
        · right
          refine ⟨k, by omega, by omega, hk3, fun i h1 h2 => ?_, hk5, hk6, hk7⟩
          rcases Nat.eq_or_lt_of_le h1 with heq | hlt
          · rw [← heq]; exact hip
          · exact hk4 i (by omega) h2
      · rw [runPoll_terminal respond m attempts _ rfl hf hip] at h
        by_cases hjc : (respond attempts).1 = "JobComplete"
        · rw [if_pos hjc, Prod.mk.injEq] at h
          exact absurd h.1 (by intro hcon; cases hcon)
        · rw [if_neg hjc, Prod.mk.injEq] at h
          right
          exact ⟨attempts, Nat.le_refl _, by omega, by omega,
            fun i h1 h2 => absurd h2 (by omega), hip, hjc, hf⟩

/-- C1: the poll loop of executeBulkQuery: the sequence
[InProgress, InProgress, JobComplete] gives success after exactly 3
polls; sixty InProgress polls give the timeout error with no 61st call
(the run only depends on the first 60 responses); a Failed poll after k
InProgress polls stops immediately with the upstream stateMessage when
present and non-empty, else the generic message. -/
theorem executeBulkQuery_state_machine (respond : Nat → String × Option String) :
    ((respond 0).1 = "InProgress" → (respond 1).1 = "InProgress" →
      (respond 2).1 = "JobComplete" →
      runBulkPolling respond = (BulkOutcome.success, 3))
    ∧ ((∀ i, i < 60 → (respond i).1 = "InProgress") →
      runBulkPolling respond = (BulkOutcome.failure timeoutMsg, 60))
    ∧ (∀ r2 : Nat → String × Option String, (∀ i, i < 60 → respond i = r2 i) →
      runBulkPolling respond = runBulkPolling r2)
    ∧ (∀ k, k < 60 → (∀ i, i < k → (respond i).1 = "InProgress") →
      (respond k).1 = "Failed" →
      runBulkPolling respond =
        (BulkOutcome.failure
          ("Bulk job failed: " ++ jsOrDefault (respond k).2 "Unknown error"),
         k + 1)) := by
  refine ⟨?_, ?_, ?_, ?_⟩
  · intro h0 h1 h2
    show runPoll respond 60 "InProgress" 0 = (BulkOutcome.success, 3)
    rw [show (60 : Nat) = 59 + 1 from rfl, runPoll_step respond 59 0 h0]
    rw [show (59 : Nat) = 58 + 1 from rfl, runPoll_step respond 58 1 h1]
    rw [show (58 : Nat) = 57 + 1 from rfl,
      runPoll_terminal respond 57 2 "JobComplete" h2 (by decide) (by decide)]
    simp
  · intro hall
    have := runPoll_all_inProgress respond 60 0 (fun i h1 h2 => hall i (by omega))
    simpa using this
  · intro r2 hagree
    exact runPoll_congr respond r2 60 "InProgress" 0 (fun i h1 h2 => hagree i (by omega))
  · intro k hk hpre hfail
    have := runPoll_failed_at respond k 60 0 hk
      (fun i h1 h2 => hpre i (by omega)) (by simpa using hfail)
    simpa using this

/-- C1 witness: the three scenarios at concrete response sources. -/
theorem executeBulkQuery_state_machine_witness :
    runBulkPolling respondSoon = (BulkOutcome.success, 3)
    ∧ runBulkPolling respondStuck = (BulkOutcome.failure timeoutMsg, 60)
    ∧ runBulkPolling respondFailing =
        (BulkOutcome.failure "Bulk job failed: Data job exceeded limit", 1) := by
  refine ⟨(executeBulkQuery_state_machine respondSoon).1 rfl rfl rfl,
    (executeBulkQuery_state_machine respondStuck).2.1 (fun i _ => rfl), ?_⟩
  have := (executeBulkQuery_state_machine respondFailing).2.2.2 0 (by omega)
    (fun i hi => absurd hi (Nat.not_lt_zero i)) rfl
  simpa [respondFailing, jsOrDefault] using this

/-- C2 counterexample: a first poll returning the terminal state Aborted
makes the loop exit at once, and the code then raises the timeout error
message after a single status poll, far below the 60-poll budget. -/
theorem executeBulkQuery_timeout_early_counterexample :
    runBulkPolling respondAborted =
      (BulkOutcome.failure "Bulk job did not complete within the expected time", 1)
    ∧ 1 < maxAttempts :=
  ⟨rfl, by decide⟩

/-- C2 amended: the timeout error is raised only when either the full
budget of 60 polls is exhausted with every poll returning InProgress,
or some poll k + 1 with k < 60, after k InProgress polls, returns a
state other than InProgress, JobComplete and Failed (such as Aborted)
and the loop stops right there with k + 1 ≤ 60 polls issued — possibly
as few as one. -/
theorem executeBulkQuery_timeout_characterization
    (respond : Nat → String × Option String) (n : Nat)
    (h : runBulkPolling respond = (BulkOutcome.failure timeoutMsg, n)) :
    (n = 60 ∧ ∀ i, i < 60 → (respond i).1 = "InProgress")
    ∨ (∃ k, k < 60 ∧ n = k + 1 ∧
        (∀ i, i < k → (respond i).1 = "InProgress") ∧
        (respond k).1 ≠ "InProgress" ∧ (respond k).1 ≠ "JobComplete" ∧
        (respond k).1 ≠ "Failed") := by
  rcases runPoll_timeout_cases respond 60 0 n h with ⟨h1, h2⟩ | ⟨k, hk1, hk2, hk3, hk4, hk5⟩
  · left
    exact ⟨by omega, fun i hi => h2 i (by omega) (by omega)⟩
  · right
    exact ⟨k, by omega, hk3, fun i hi => hk4 i (by omega) hi, hk5⟩

/-- Boundary of the timeout characterization: with polls 0 to 58
InProgress and poll 59 Aborted, the early-exit case coincides with the
full budget — the timeout error is raised after exactly 60 polls even
though not every poll returned InProgress. -/
theorem bulk_timeout_boundary_case :
    runBulkPolling respondLateAbort =
      (BulkOutcome.failure "Bulk job did not complete within the expected time", 60)
    ∧ (respondLateAbort 59).1 ≠ "InProgress" :=
  ⟨rfl, by decide⟩

/-- C2 amended witness: instantiated at the all-Aborted response source,
where the timeout error is raised after one poll. -/
theorem executeBulkQuery_timeout_characterization_witness :
    (1 = 60 ∧ ∀ i, i < 60 → (respondAborted i).1 = "InProgress")
    ∨ (∃ k, k < 60 ∧ 1 = k + 1 ∧
        (∀ i, i < k → (respondAborted i).1 = "InProgress") ∧
        (respondAborted k).1 ≠ "InProgress" ∧ (respondAborted k).1 ≠ "JobComplete" ∧
        (respondAborted k).1 ≠ "Failed") :=
  executeBulkQuery_timeout_characterization respondAborted 1 rfl

/-- splitOnChar never returns an empty list of fields. -/
theorem splitOnChar_ne_nil (sep : Char) (l : List Char) :
    splitOnChar sep l ≠ [] := by
  cases l with
  | nil => simp [splitOnChar]
  | cons c rest =>
    unfold splitOnChar
    by_cases h : c = sep
    · simp [h]
    · simp only [if_neg h]
      cases splitOnChar sep rest with
      | nil => simp
      | cons a t => simp

/-- parseCSVToRecords, rewritten for a known line split. -/
theorem parseCSVToRecords_eq (csvText : String) (hl : List Char)
    (dls : List (List Char))
    (h : splitOnChar newlineChar (jsTrimChars csvText.data) = hl :: dls) :
    parseCSVToRecords csvText =
      (dls.filter (fun line => jsTrimChars line ≠ [])).map
        (fun line => buildRecord (parseHeadersLine hl) (parseCSVLine line)) := by
  unfold parseCSVToRecords
  rw [h]

/-- csvHeaders, rewritten for a known line split. -/
theorem csvHeaders_eq (csvText : String) (hl : List Char) (dls : List (List Char))
    (h : splitOnChar newlineChar (jsTrimChars csvText.data) = hl :: dls) :
    csvHeaders csvText = parseHeadersLine hl := by
  unfold csvHeaders
  rw [h]

/-- The keys of a built record are the headers, in order. -/
theorem buildRecordAux_map_fst (vs : List String) :
    ∀ (idx : Nat) (hs : List String),
      (buildRecordAux vs idx hs).map Prod.fst = hs := by
  intro idx hs
  induction hs generalizing idx with
  | nil => rfl
  | cons h t ih => simp [buildRecordAux, ih]

/-- The keys of a record are the headers, in order. -/
theorem buildRecord_map_fst (hs vs : List String) :
    (buildRecord hs vs).map Prod.fst = hs :=
  buildRecordAux_map_fst vs 0 hs

/-- Every decoded record is keyed exactly by the decoded header names. -/
theorem parseCSVToRecords_keys (csvText : String) (r : List (String × JsValue))
    (hr : r ∈ parseCSVToRecords csvText) :
    r.map Prod.fst = csvHeaders csvText := by
  cases hsplit : splitOnChar newlineChar (jsTrimChars csvText.data) with
  | nil => exact absurd hsplit (splitOnChar_ne_nil _ _)
  | cons hl dls =>
    rw [parseCSVToRecords_eq csvText hl dls hsplit] at hr
    rw [csvHeaders_eq csvText hl dls hsplit]
    rw [List.mem_map] at hr
    obtain ⟨line, hline, rfl⟩ := hr
    exact buildRecord_map_fst _ _

/-- Record entries, position by position. -/
theorem buildRecordAux_get? (vs : List String) :
    ∀ (hs : List String) (idx j : Nat),
      (buildRecordAux vs idx hs).get? j =
        (hs.get? j).map (fun h => (h, coerceCell (vs.get? (idx + j)))) := by
  intro hs
  induction hs with
  | nil => intro idx j; rfl
  | cons h t ih =>
    intro idx j
    cases j with
    | zero => rfl
    | succ m =>
      show (buildRecordAux vs (idx + 1) t).get? m = _
      rw [ih (idx + 1) m]
      have : idx + 1 + m = idx + (m + 1) := by omega
      rw [this]
      rfl

/-- C3 counterexample: for the CSV text with the quoted header field
containing a comma, the header is split at the embedded comma — the
header scan is not the quote-aware scan used for data lines — yielding
the two header names A and B instead of the single name containing the
comma. -/
theorem csv_header_quoted_comma_counterexample :
    parseCSVToRecords "\"A,B\"\nx,y" =
      [[("A", JsValue.str "x"), ("B", JsValue.str "y")]]
    ∧ csvHeaders "\"A,B\"\nx,y" = ["A", "B"]
    ∧ ["A", "B"] ≠ ["A,B"] :=
  ⟨by decide, by decide, by decide⟩

/-- C3 amended: the header line is split at every comma regardless of
quoting, then one leading and one trailing quote are stripped from each
piece; the keys of every decoded record are exactly that list. Data
lines still use the quote-aware scan. -/
theorem csv_header_split_is_quote_blind (csvText : String)
    (r : List (String × JsValue)) (hr : r ∈ parseCSVToRecords csvText) :
    r.map Prod.fst = quoteBlindHeaders csvText := by
  cases hsplit : splitOnChar newlineChar (jsTrimChars csvText.data) with
  | nil => exact absurd hsplit (splitOnChar_ne_nil _ _)
  | cons hl dls =>
    rw [parseCSVToRecords_keys csvText r hr, csvHeaders_eq csvText hl dls hsplit]
    unfold quoteBlindHeaders
    rw [hsplit]
    rfl

/-- C3 amended witness: at the quoted-comma header input, the record
keys are the quote-blind split of the header line. -/
theorem csv_header_split_is_quote_blind_witness :
    ([("A", JsValue.str "x"), ("B", JsValue.str "y")] :
        List (String × JsValue)).map Prod.fst =
      quoteBlindHeaders "\"A,B\"\nx,y" :=
  csv_header_split_is_quote_blind "\"A,B\"\nx,y" _ (by decide)

/-- IEEE-754 fidelity vectors of the numeric model, matching the
builtins: the odd integer 2 ^ 53 + 1 stays a string because parseFloat
rounds it to the even neighbour and the re-stringification differs;
1e22 written out in 23 digits stays a string because its toString is
the exponent form 1e+22; the literal 1e+22 is coerced to the number
1e22; the notation boundary sits at 1e21; and ordinary decimals like
0.1 and 123 coerce to their doubles. -/
theorem coerceCell_ieee_vectors :
    coerceCell (some "9007199254740993") = JsValue.str "9007199254740993"
    ∧ jsToString (jsParseFloat "9007199254740993") = "9007199254740992"
    ∧ coerceCell (some "10000000000000000000000") =
        JsValue.str "10000000000000000000000"
    ∧ coerceCell (some "1e+22") =
        JsValue.num (JsNum.finite false 4768371582031250 21)
    ∧ coerceCell (some "1e21") = JsValue.str "1e21"
    ∧ coerceCell (some "1e+21") =
        JsValue.num (JsNum.finite false 7629394531250000 17)
    ∧ coerceCell (some "0.1") =
        JsValue.num (JsNum.finite false 7205759403792794 (-56))
    ∧ coerceCell (some "123") =
        JsValue.num (JsNum.finite false 8655355533852672 (-46)) :=
  ⟨by decide, by decide, by decide, by decide, by decide, by decide,
   by decide, by decide⟩

/-- C8: the end-to-end example — the CSV text with the quoted value
containing a comma decodes to exactly one record; the embedded comma is
preserved inside the value, and both values stay strings. -/
theorem csv_embedded_comma_example :
    parseCSVToRecords "Id,Name\n001xx,\"Acme, Inc.\"\n" =
      [[("Id", JsValue.str "001xx"), ("Name", JsValue.str "Acme, Inc.")]] := by
  decide

/-- C10: every decoded record is keyed exactly by the header names
(extra cells beyond the headers are dropped — the record length is the
header count) and a header whose row has no cell at its index maps to
null; the decoder is a total function, so ragged rows never fail. -/
theorem csv_ragged_rows :
    (∀ (csvText : String) (r : List (String × JsValue)),
      r ∈ parseCSVToRecords csvText → r.map Prod.fst = csvHeaders csvText)
    ∧ (∀ hs vs : List String, (buildRecord hs vs).length = hs.length)
    ∧ (∀ (hs vs : List String) (j : Nat) (h : String),
        hs.get? j = some h → vs.length ≤ j →
        (buildRecord hs vs).get? j = some (h, JsValue.null)) := by
  refine ⟨parseCSVToRecords_keys, ?_, ?_⟩
  · intro hs vs
    have := congrArg List.length (buildRecord_map_fst hs vs)
    simpa using this
  · intro hs vs j h hj hlen
    unfold buildRecord
    rw [buildRecordAux_get? vs hs 0 j, hj]
    have hnone : vs.get? (0 + j) = none := by
      rw [List.get?_eq_none]
      omega
    rw [hnone]
    rfl

/-- C10 witness: a row with one cell under two headers — the second
header maps to null, and the keys are the two headers. -/
theorem csv_ragged_rows_witness :
    ([("a", JsValue.str "x"), ("b", JsValue.null)] :
        List (String × JsValue)).map Prod.fst = csvHeaders "a,b\nx"
    ∧ (buildRecord ["a", "b"] ["x"]).get? 1 = some ("b", JsValue.null) :=
  ⟨csv_ragged_rows.1 "a,b\nx" _ (by decide),
   csv_ragged_rows.2.2 ["a", "b"] ["x"] 1 "b" rfl (by decide)⟩

/-- takesLead holds of a list against itself extended. -/
theorem takesLeadOfAppend (a b : List Char) :
    takesLead a (a ++ b) = true := by
  induction a with
  | nil => rfl
  | cons c rest ih => simp [takesLead, ih]

/-- Every cache key of an instance starts with that instance prefix. -/
theorem strStartsWith_cacheKey (u o : String) :
    strStartsWith (getCacheKey u o) (u ++ ":") = true := by
  show takesLead (u ++ ":").data ((u ++ ":") ++ o).data = true
  rw [String.data_append]
  exact takesLeadOfAppend _ _

/-- Lookup after overwrite at the same key. -/
theorem mapGet_mapSet_self (m : MetadataCache) (k : String) (v : CachedMetadata) :
    mapGet (mapSet m k v) k = some v := by
  induction m with
  | nil => simp [mapSet, mapGet]
  | cons p rest ih =>
    by_cases h : p.1 = k
    · simp [mapSet, mapGet, h]
    · simp [mapSet, mapGet, h, ih]

/-- Lookup after delete at the same key. -/
theorem mapGet_mapDelete_self (m : MetadataCache) (k : String) :
    mapGet (mapDelete m k) k = none := by
  induction m with
  | nil => rfl
  | cons p rest ih =>
    by_cases h : p.1 = k
    · simpa [mapDelete, List.filter_cons, h] using ih
    · simpa [mapDelete, List.filter_cons, h, mapGet] using ih

/-- After clearInstanceCache, a key that starts with the cleared prefix
is gone. -/
theorem mapGet_clearInstanceCache_removed (u k : String)
    (h : strStartsWith k (u ++ ":") = true) (m : MetadataCache) :
    mapGet (clearInstanceCache u m) k = none := by
  unfold clearInstanceCache
  induction m with
  | nil => rfl
  | cons p rest ih =>
    rw [List.filter_cons]
    by_cases hk : strStartsWith p.1 (u ++ ":") = true
    · rw [hk]
      exact ih
    · rw [Bool.not_eq_true] at hk
      rw [hk]
      have hne : p.1 ≠ k := by
        intro he
        rw [he, h] at hk
        cases hk
      show mapGet ((p.1, p.2) :: _) k = none
      rw [mapGet, if_neg hne]
      exact ih

/-- After clearInstanceCache, a key that does not start with the
cleared prefix reads exactly as before. -/
theorem mapGet_clearInstanceCache_other (u k : String)
    (h : strStartsWith k (u ++ ":") = false) (m : MetadataCache) :
    mapGet (clearInstanceCache u m) k = mapGet m k := by
  unfold clearInstanceCache
  induction m with
  | nil => rfl
  | cons p rest ih =>
    rw [List.filter_cons]
    by_cases hk : strStartsWith p.1 (u ++ ":") = true
    · rw [hk]
      have hne : p.1 ≠ k := by
        intro he
        rw [he, h] at hk
        cases hk
      show mapGet (List.filter (fun q => !strStartsWith q.1 (u ++ ":")) rest) k =
        mapGet ((p.1, p.2) :: rest) k
      rw [ih, mapGet, if_neg hne]
    · rw [Bool.not_eq_true] at hk
      rw [hk]
      show mapGet ((p.1, p.2) :: _) k = mapGet ((p.1, p.2) :: rest) k
      rw [mapGet, mapGet]
      by_cases he : p.1 = k
      · rw [if_pos he, if_pos he]
      · rw [if_neg he, if_neg he]
        exact ih

/-- C5 counterexample: the entry stored under the distinct instance
base URL https://a:b is also removed by invalidating https://a, because
its key https://a:b:o starts with the prefix https://a: as well. -/
theorem clearInstanceCache_cross_instance_counterexample :
    (getCachedMetadata 0 "https://a:b" "o"
        (setCachedMetadata 0 "https://a:b" "o" exampleMetadata 100 [])).1
      = some exampleMetadata
    ∧ (getCachedMetadata 0 "https://a:b" "o"
        (clearInstanceCache "https://a"
          (setCachedMetadata 0 "https://a:b" "o" exampleMetadata 100 []))).1 = none
    ∧ "https://a:b" ≠ "https://a" :=
  ⟨by decide, by decide, by decide⟩

/-- C5 amended: invalidating an instance removes every entry of that
instance; an entry under another instance base URL survives unchanged
provided its own key does not start with the cleared prefix (instance
URLs that extend the cleared one past a colon are also swept). -/
theorem clearInstanceCache_frame (u o u2 o2 : String) (m : MetadataCache)
    (h : strStartsWith (getCacheKey u2 o2) (u ++ ":") = false) :
    mapGet (clearInstanceCache u m) (getCacheKey u o) = none
    ∧ mapGet (clearInstanceCache u m) (getCacheKey u2 o2)
        = mapGet m (getCacheKey u2 o2) :=
  ⟨mapGet_clearInstanceCache_removed u (getCacheKey u o) (strStartsWith_cacheKey u o) m,
   mapGet_clearInstanceCache_other u (getCacheKey u2 o2) h m⟩

/-- C5 amended witness: two instances with genuinely unrelated URLs —
clearing the first removes its entry and leaves the second alone. -/
theorem clearInstanceCache_frame_witness :
    mapGet (clearInstanceCache "https://a.example"
        (setCachedMetadata 0 "https://b.example" "Account" exampleMetadata 100 []))
      (getCacheKey "https://a.example" "Account") = none
    ∧ mapGet (clearInstanceCache "https://a.example"
        (setCachedMetadata 0 "https://b.example" "Account" exampleMetadata 100 []))
        (getCacheKey "https://b.example" "Account")
      = mapGet (setCachedMetadata 0 "https://b.example" "Account" exampleMetadata 100 [])
          (getCacheKey "https://b.example" "Account") :=
  clearInstanceCache_frame "https://a.example" "Account" "https://b.example" "Account"
    (setCachedMetadata 0 "https://b.example" "Account" exampleMetadata 100 [])
    (by decide)

/-- C6: getCachedMetadata returns the stored data exactly when an entry
is present and now minus its timestamp is below its ttl; otherwise it
returns null, removing the entry from the store when a stale one was
present. In particular an entry with ttl 100 inserted at time 0 is a
hit when read at time 0, and at time 150 it is a miss with the entry
evicted from the underlying store. -/
theorem getCachedMetadata_ttl_spec (now : Int) (u o : String) (c : MetadataCache)
    (X : ObjectMetadata) :
    (getCachedMetadata now u o c =
      match mapGet c (getCacheKey u o) with
      | some e =>
        if now - e.timestamp < e.ttl then (some e.data, c)
        else (none, mapDelete c (getCacheKey u o))
      | none => (none, c))
    ∧ getCachedMetadata 0 u o (setCachedMetadata 0 u o X 100 c)
        = (some X, setCachedMetadata 0 u o X 100 c)
    ∧ (getCachedMetadata 150 u o (setCachedMetadata 0 u o X 100 c)).1 = none
    ∧ mapGet ((getCachedMetadata 150 u o (setCachedMetadata 0 u o X 100 c)).2)
        (getCacheKey u o) = none := by
  refine ⟨?_, ?_, ?_, ?_⟩
  · simp only [getCachedMetadata]
    cases hm : mapGet c (getCacheKey u o) with
    | none => rfl
    | some e => simp [isValidCacheEntry]
  · simp only [getCachedMetadata, setCachedMetadata, mapGet_mapSet_self]
    norm_num [isValidCacheEntry]
  · simp only [getCachedMetadata, setCachedMetadata, mapGet_mapSet_self]
    norm_num [isValidCacheEntry]
  · simp only [getCachedMetadata, setCachedMetadata, mapGet_mapSet_self]
    norm_num [isValidCacheEntry]
    exact mapGet_mapDelete_self _ _

/-- C9: cache keys are a non-injective concatenation — storing under
the pair (https://a:Acc, ount) is read back by the distinct pair
(https://a, Acc:ount), which builds the same key. -/
theorem cacheKey_collision :
    (("https://a:Acc", "ount") : String × String) ≠ ("https://a", "Acc:ount")
    ∧ (getCachedMetadata 0 "https://a" "Acc:ount"
        (setCachedMetadata 0 "https://a:Acc" "ount" exampleMetadata DEFAULT_TTL [])).1
      = some exampleMetadata :=
  ⟨by decide, by decide⟩

/-- Every character code is below the Unicode bound. -/
theorem char_toNat_lt (c : Char) : c.toNat < 1114112 := by
  have h : c.toNat < 55296 ∨ 57344 ≤ c.toNat ∧ c.toNat < 1114112 := c.valid
  omega

/-- hexVal inverts hexDigitChar on digit values. -/
theorem hexVal_hexDigitChar (n : Nat) (h : n < 16) :
    hexVal (hexDigitChar n) = n := by
  have hfin : ∀ m : Fin 16, hexVal (hexDigitChar m.val) = m.val := by decide
  exact hfin ⟨n, h⟩

/-- Unreserved characters are never the percent sign. -/
theorem isUnreserved_ne_percent (c : Char) (h : isUnreservedChar c = true) :
    c.toNat ≠ 37 := by
  intro he
  rw [isUnreservedChar, he] at h
  simp at h

/-- Tokenizing from a non-percent character keeps it raw. -/
theorem uriTokenize_cons_nonpercent (c : Char) (h : c.toNat ≠ 37) (l : List Char) :
    uriTokenize (c :: l) = UriTok.raw c :: uriTokenize l := by
  rcases l with _ | ⟨c2, _ | ⟨c3, t⟩⟩ <;> simp [uriTokenize, h]

/-- Tokenizing a percent escape recovers the byte. -/
theorem uriTokenize_percentByte (b : Nat) (hb : b < 256) (l : List Char) :
    uriTokenize (percentByte b ++ l) = UriTok.byte b :: uriTokenize l := by
  have e1 : hexVal (hexDigitChar (b / 16)) = b / 16 :=
    hexVal_hexDigitChar _ (by omega)
  have e2 : hexVal (hexDigitChar (b % 16)) = b % 16 :=
    hexVal_hexDigitChar _ (by omega)
  have h37 : (Char.ofNat 37).toNat = 37 := rfl
  rcases l with _ | ⟨c2, t⟩ <;>
    (simp [percentByte, uriTokenize, h37, e1, e2]; omega)

/-- All modelled UTF-8 bytes fit in one byte. -/
theorem utf8Bytes_lt (c : Char) : ∀ b ∈ utf8Bytes c, b < 256 := by
  intro b hb
  have hc := char_toNat_lt c
  unfold utf8Bytes at hb
  split_ifs at hb with h1 h2 h3
  · simp at hb
    omega
  · simp at hb
    rcases hb with rfl | rfl <;> omega
  · simp at hb
    rcases hb with rfl | rfl | rfl <;> omega
  · simp at hb
    rcases hb with rfl | rfl | rfl | rfl <;> omega

/-- Tokenizing a run of percent escapes recovers the byte list. -/
theorem uriTokenize_percentList (bs : List Nat) (h : ∀ b ∈ bs, b < 256)
    (l : List Char) :
    uriTokenize (bs.flatMap percentByte ++ l) =
      bs.map UriTok.byte ++ uriTokenize l := by
  induction bs with
  | nil => simp
  | cons b t ih =>
    rw [List.flatMap_cons, List.append_assoc,
      uriTokenize_percentByte b (h b (by simp)) _,
      ih (fun x hx => h x (by simp [hx]))]
    rfl

/-- Tokenizing one encoded character yields its token form. -/
theorem uriTokenize_encodeChar (c : Char) (l : List Char) :
    uriTokenize (encodeChar c ++ l) = encTokens c ++ uriTokenize l := by
  unfold encodeChar encTokens
  by_cases hu : isUnreservedChar c
  · rw [if_pos hu, if_pos hu]
    exact uriTokenize_cons_nonpercent c (isUnreserved_ne_percent c hu) l
  · rw [if_neg hu, if_neg hu]
    exact uriTokenize_percentList (utf8Bytes c) (utf8Bytes_lt c) l

/-- One-byte decode step. -/
theorem uriDecodeAux_byte1 (b : Nat) (h : b < 128) (rest : List UriTok) :
    uriDecodeAux none (UriTok.byte b :: rest) =
      Char.ofNat b :: uriDecodeAux none rest := by
  simp only [uriDecodeAux]
  rw [if_pos h]

/-- Two-byte leader decode step. -/
theorem uriDecodeAux_byte2 (b : Nat) (h1 : ¬ b < 128) (h2 : b < 224)
    (rest : List UriTok) :
    uriDecodeAux none (UriTok.byte b :: rest) =
      uriDecodeAux (some (b - 192, 1)) rest := by
  simp only [uriDecodeAux]
  rw [if_neg h1, if_pos h2]

/-- Three-byte leader decode step. -/
theorem uriDecodeAux_byte3 (b : Nat) (h1 : ¬ b < 128) (h2 : ¬ b < 224)
    (h3 : b < 240) (rest : List UriTok) :
    uriDecodeAux none (UriTok.byte b :: rest) =
      uriDecodeAux (some (b - 224, 2)) rest := by
  simp only [uriDecodeAux]
  rw [if_neg h1, if_neg h2, if_pos h3]

/-- Four-byte leader decode step. -/
theorem uriDecodeAux_byte4 (b : Nat) (h1 : ¬ b < 128) (h2 : ¬ b < 224)
    (h3 : ¬ b < 240) (rest : List UriTok) :
    uriDecodeAux none (UriTok.byte b :: rest) =
      uriDecodeAux (some (b - 240, 3)) rest := by
  simp only [uriDecodeAux]
  rw [if_neg h1, if_neg h2, if_neg h3]

/-- Final continuation byte: emit the assembled character. -/
theorem uriDecodeAux_cont_last (acc b : Nat) (rest : List UriTok) :
    uriDecodeAux (some (acc, 1)) (UriTok.byte b :: rest) =
      Char.ofNat (acc * 64 + (b - 128)) :: uriDecodeAux none rest := by
  simp only [uriDecodeAux]
  rw [if_pos (by omega)]

/-- Middle continuation byte: extend the accumulator. -/
theorem uriDecodeAux_cont_mid (acc k b : Nat) (hk : ¬ k ≤ 1) (rest : List UriTok) :
    uriDecodeAux (some (acc, k)) (UriTok.byte b :: rest) =
      uriDecodeAux (some (acc * 64 + (b - 128), k - 1)) rest := by
  simp only [uriDecodeAux]
  rw [if_neg hk]

/-- Decoding the tokens of one encoded character yields the character
back and continues behind it. -/
theorem uriDecodeAux_encTokens (c : Char) (rest : List UriTok) :
    uriDecodeAux none (encTokens c ++ rest) = c :: uriDecodeAux none rest := by
  unfold encTokens
  by_cases hu : isUnreservedChar c
  · rw [if_pos hu]
    rfl
  · rw [if_neg hu]
    have hc := char_toNat_lt c
    unfold utf8Bytes
    by_cases h1 : c.toNat < 128
    · rw [if_pos h1]
      show uriDecodeAux none (UriTok.byte c.toNat :: rest) = _
      rw [uriDecodeAux_byte1 _ h1, Char.ofNat_toNat]
    · rw [if_neg h1]
      by_cases h2 : c.toNat < 2048
      · rw [if_pos h2]
        show uriDecodeAux none
          (UriTok.byte (192 + c.toNat / 64) :: UriTok.byte (128 + c.toNat % 64) :: rest)
          = _
        rw [uriDecodeAux_byte2 _ (by omega) (by omega), uriDecodeAux_cont_last]
        have e : (192 + c.toNat / 64 - 192) * 64 + (128 + c.toNat % 64 - 128) =
            c.toNat := by omega
        rw [e, Char.ofNat_toNat]
      · rw [if_neg h2]
        by_cases h3 : c.toNat < 65536
        · rw [if_pos h3]
          show uriDecodeAux none
            (UriTok.byte (224 + c.toNat / 4096) :: UriTok.byte (128 + (c.toNat / 64) % 64)
              :: UriTok.byte (128 + c.toNat % 64) :: rest) = _
          rw [uriDecodeAux_byte3 _ (by omega) (by omega) (by omega),
            uriDecodeAux_cont_mid _ _ _ (by omega), uriDecodeAux_cont_last]
          have e : ((224 + c.toNat / 4096 - 224) * 64 + (128 + (c.toNat / 64) % 64 - 128))
              * 64 + (128 + c.toNat % 64 - 128) = c.toNat := by omega
          rw [e, Char.ofNat_toNat]
        · rw [if_neg h3]
          show uriDecodeAux none
            (UriTok.byte (240 + c.toNat / 262144) :: UriTok.byte (128 + (c.toNat / 4096) % 64)
              :: UriTok.byte (128 + (c.toNat / 64) % 64) :: UriTok.byte (128 + c.toNat % 64)
              :: rest) = _
          rw [uriDecodeAux_byte4 _ (by omega) (by omega) (by omega),
            uriDecodeAux_cont_mid _ _ _ (by omega),
            uriDecodeAux_cont_mid _ _ _ (by omega), uriDecodeAux_cont_last]
          have e : (((240 + c.toNat / 262144 - 240) * 64 + (128 + (c.toNat / 4096) % 64 - 128))
              * 64 + (128 + (c.toNat / 64) % 64 - 128)) * 64 + (128 + c.toNat % 64 - 128)
              = c.toNat := by omega
          rw [e, Char.ofNat_toNat]

/-- Character-list round trip: decoding an encoded list is the
identity. -/
theorem uriRoundtripChars (l : List Char) :
    uriDecodeAux none (uriTokenize (l.flatMap encodeChar)) = l := by
  induction l with
  | nil => rfl
  | cons c t ih =>
    rw [List.flatMap_cons, uriTokenize_encodeChar, uriDecodeAux_encTokens, ih]

/-- C7: executeQuery URL-encodes the query exactly once — the issued
path is the fixed query endpoint plus the encoded query, and decoding
the encoded query component reproduces the original query string. -/
theorem executeQuery_urlencode_roundtrip (query : String) :
    executeQueryPath query = "/services/data/v58.0/query/?q=" ++ encodeURIComponent query
    ∧ decodeURIComponent (encodeURIComponent query) = query := by
  refine ⟨rfl, ?_⟩
  cases query with
  | mk data =>
    show String.mk (uriDecodeAux none (uriTokenize (data.flatMap encodeChar))) =
      String.mk data
    rw [uriRoundtripChars]

end Workbench
